import Mathlib

/-!
Shallow embedding of the FreshBot audio buffering / flush / transcription
pipeline (`src/app.py`), together with theorems settling the specification
claims about it.

Modelling conventions:
* numpy `int16` / `int32` values are `Int` together with explicit wraparound
  functions modelling the `astype` casts;
* numpy integer `//` is floor division, embedded as `Int.fdiv`;
* a PCM frame is a `List Int` of decoded `int16` samples;
* a speaker's deque of sample blocks is a `List (List Int)` in FIFO order
  (head = oldest);
* wall-clock times and the float-valued configuration constants are `ℚ`
  (every comparison the code performs on these values is exact at the
  rationals involved, so this is faithful);
* the Whisper engine is an oracle parameter `List Int → Except Unit String`:
  `Except.error` models an exception escaping `_do_transcribe`, `Except.ok raw`
  the returned text before the caller's `.strip()`.
-/

namespace Freshbot

/-- Configuration constant `SR_OUT = 16000` (target sample rate). -/
def SR_OUT : Nat := 16000

/-- Configuration constant `CHUNK_SECONDS = 5`. -/
def CHUNK_SECONDS : Nat := 5

/-- Configuration constant `IDLE_FLUSH_SECONDS = 2.0`. -/
def IDLE_FLUSH_SECONDS : ℚ := 2

/-- Configuration constant `MAX_BUFFER_SECONDS = 6.0`. -/
def MAX_BUFFER_SECONDS : ℚ := 6

/-- Configuration constant `MIN_SECONDS_TO_POST = 1.6`. -/
def MIN_SECONDS_TO_POST : ℚ := 1.6

/-- `chunk = int(CHUNK_SECONDS * SR_OUT)` computed in `_worker` (80000 samples). -/
def chunkSamples : Nat := CHUNK_SECONDS * SR_OUT

/-- `cap = int(MAX_BUFFER_SECONDS * SR_OUT)` computed in `_worker` (96000 samples). -/
def capSamples : Nat := (MAX_BUFFER_SECONDS * (SR_OUT : ℚ)).floor.toNat

/-- Two's-complement wraparound to a signed `bits`-bit integer, modelling a
numpy `astype` cast to a narrower signed integer type. -/
def wrapInt (bits : Nat) (x : Int) : Int :=
  (x + 2 ^ (bits - 1)) % 2 ^ bits - 2 ^ (bits - 1)

/-- Cast to `np.int16` with wraparound. -/
def toInt16wrap (x : Int) : Int := wrapInt 16 x

/-- Cast to `np.int32` with wraparound. -/
def toInt32wrap (x : Int) : Int := wrapInt 32 x

/-- The value range of `int16`. -/
def isInt16 (x : Int) : Prop := -32768 ≤ x ∧ x ≤ 32767

instance (x : Int) : Decidable (isInt16 x) :=
  inferInstanceAs (Decidable (-32768 ≤ x ∧ x ≤ 32767))

/-- One output sample of `_downmix_stereo_to_mono_int16` on a two-channel
frame `(a, b)`: `((stereo.astype(np.int32).sum(axis=1) // 2)).astype(np.int16)`.
Both channels are cast to `int32`, summed in `int32`, floor-divided by two
(numpy `//`), and the result cast back to `int16`. -/
def downmixPair (a b : Int) : Int :=
  toInt16wrap (Int.fdiv (toInt32wrap (toInt32wrap a + toInt32wrap b)) 2)

/-- `_downmix_stereo_to_mono_int16` on a reshaped `(-1, 2)` array, as the list
of interleaved channel pairs. -/
def downmixStereoToMonoInt16 (stereo : List (Int × Int)) : List Int :=
  stereo.map (fun p => downmixPair p.1 p.2)

/-- Group a flat even-length sample list into consecutive `(left, right)`
pairs, modelling `arr.reshape(-1, 2)`. A trailing odd element is dropped
(the caller only reshapes when the length is even). -/
def pairUp : List Int → List (Int × Int)
  | a :: b :: rest => (a, b) :: pairUp rest
  | _ => []

/-- The slice `mono_48k[::3]`: keep every 3rd sample starting at index 0. -/
def every3 : List Int → List Int
  | [] => []
  | x :: xs => x :: every3 (xs.drop 2)
termination_by l => l.length
decreasing_by simp [List.length_drop]; omega

/-- `_resample_48k_to_16k_mono_int16`: decimation by 3 via slicing. -/
def resample48kTo16kMonoInt16 (mono48k : List Int) : List Int :=
  every3 mono48k

/-- The sample-conversion pipeline applied to one decoded frame inside
`TranscribeSink.write`: if the flat array has even length it is reshaped to
`(-1, 2)` and downmixed; otherwise `_downmix_stereo_to_mono_int16` receives
the 1-dimensional array and returns it unchanged. The result is decimated
by 3. -/
def processFrame (pcm : List Int) : List Int :=
  let arr := if pcm.length % 2 = 0 then downmixStereoToMonoInt16 (pairUp pcm) else pcm
  resample48kTo16kMonoInt16 arr

/-- Total number of buffered samples across a deque of blocks
(`sum(len(x) for x in dq)`). -/
def blocksLen (bs : List (List Int)) : Nat :=
  (bs.map List.length).sum

/-- The drain loop of the `chunk` branch of `TranscribeSink._worker`:

    samples = []; have = 0
    while dq and have < chunk:
        part = dq.popleft(); samples.append(part); have += len(part)

Parameterised by the remaining need `chunk - have` (as a saturating `Nat`,
so the loop guard `have < chunk` is `0 < need`). Returns the drained prefix
and the remaining queue. -/
def drainUpTo (need : Nat) : List (List Int) → List (List Int) × List (List Int)
  | [] => ([], [])
  | b :: rest =>
    if 0 < need then
      let p := drainUpTo (need - b.length) rest
      (b :: p.1, p.2)
    else ([], b :: rest)

theorem blocksLen_nil : blocksLen [] = 0 := rfl

theorem blocksLen_cons (b : List Int) (bs : List (List Int)) :
    blocksLen (b :: bs) = b.length + blocksLen bs := by
  simp [blocksLen]

theorem blocksLen_append (xs ys : List (List Int)) :
    blocksLen (xs ++ ys) = blocksLen xs + blocksLen ys := by
  simp [blocksLen]

theorem blocksLen_eq_flatten_length (bs : List (List Int)) :
    blocksLen bs = bs.flatten.length := by
  induction bs with
  | nil => rfl
  | cons b rest ih => simp [blocksLen_cons, ih]

/-- `drainUpTo` splits the queue: drained prefix followed by remainder is
the original queue. -/
theorem drainUpTo_append (need : Nat) (dq : List (List Int)) :
    (drainUpTo need dq).1 ++ (drainUpTo need dq).2 = dq := by
  induction dq generalizing need with
  | nil => rfl
  | cons b rest ih =>
    by_cases h : 0 < need
    · simp [drainUpTo, h, ih]
    · simp [drainUpTo, h]

/-- `drainUpTo` either satisfies the request or empties the queue. -/
theorem drainUpTo_enough (need : Nat) (dq : List (List Int)) :
    need ≤ blocksLen (drainUpTo need dq).1 ∨ (drainUpTo need dq).2 = [] := by
  induction dq generalizing need with
  | nil =>
    right; rfl
  | cons b rest ih =>
    by_cases h : 0 < need
    · rcases ih (need - b.length) with henough | hempty
      · left
        simp only [drainUpTo, h, if_pos, blocksLen_cons]
        omega
      · right
        simp [drainUpTo, h, hempty]
    · left
      simp only [drainUpTo, h, if_neg, not_false_iff]
      omega

/-- Every proper prefix of the drained blocks falls short of the request:
the loop stops as soon as it is satisfied. -/
theorem drainUpTo_minimal (need : Nat) (dq : List (List Int)) :
    ∀ k, k < (drainUpTo need dq).1.length →
      blocksLen ((drainUpTo need dq).1.take k) < need := by
  induction dq generalizing need with
  | nil => intro k hk; simp [drainUpTo] at hk
  | cons b rest ih =>
    intro k hk
    by_cases h : 0 < need
    · simp only [drainUpTo, h, if_pos] at hk ⊢
      cases k with
      | zero => simpa [blocksLen] using h
      | succ j =>
        simp only [List.length_cons, Nat.succ_lt_succ_iff] at hk
        have := ih (need - b.length) j hk
        simp only [List.take_succ_cons, blocksLen_cons]
        omega
    · simp [drainUpTo, h] at hk

/-- Per-speaker state: the deque `self._buffers[key]`, the display name
`self._names[key]` and the timestamp `self._last_activity[key]`. The three
dicts of `TranscribeSink` always hold the same keys (entries are created
together in `write` and never deleted), so they are bundled. -/
structure SpeakerData where
  blocks : List (List Int)
  name : String
  last : ℚ
deriving Repr, DecidableEq

/-- Flush reason strings passed to `_flush_speaker` / used in `_worker`. -/
inductive FlushReason where
  | idle
  | cap
  | chunk
  | final
deriving Repr, DecidableEq

/-- The observable outcome of one flush: the drained blocks, the transcript
line handed to `transcripts.append_line` (speaker, text) if any, and the
message sent to `post_channel.send` if any. -/
structure FlushEvent where
  reason : FlushReason
  drained : List (List Int)
  line : Option (String × String)
  post : Option String
deriving Repr, DecidableEq

/-- Python `str.strip()`: drop leading and trailing whitespace. Defined over
the character list so it is kernel-computable. -/
def pyStrip (s : String) : String :=
  String.mk (((s.data.dropWhile Char.isWhitespace).reverse.dropWhile Char.isWhitespace).reverse)

/-- The output logic shared verbatim by `_flush_speaker` and the `chunk`
branch of `_worker`, applied after transcription succeeded:

    text = (text or "").strip()
    if not text: return/continue
    transcripts.append_line(..., text, speaker=name, ...)
    sec = mono16.size / SR_OUT
    if sec >= MIN_SECONDS_TO_POST: await self.post_channel.send(f"…")

Returns the transcript line and the posted message (each optional). -/
def emitForClip (name raw : String) (monoLen : Nat) : Option (String × String) × Option String :=
  let text := pyStrip raw
  if text = "" then (none, none)
  else
    (some (name, text),
     if (monoLen : ℚ) / (SR_OUT : ℚ) ≥ MIN_SECONDS_TO_POST then
       some ("**" ++ name ++ ":** " ++ text)
     else none)

/-- `TranscribeSink._flush_speaker(key, reason)` acting on one speaker's
state: return unchanged if the deque is missing/empty; otherwise pop all
blocks, concatenate, and (unless the clip is empty) transcribe and emit.
An engine exception is caught (`return`), producing no line and no post;
the drained audio is never put back. -/
def flushSpeakerFn (engine : List Int → Except Unit String) (reason : FlushReason)
    (d : SpeakerData) : SpeakerData × Option FlushEvent :=
  match d.blocks with
  | [] => (d, none)
  | _ :: _ =>
    let samples := d.blocks
    let d2 : SpeakerData := { d with blocks := [] }
    let mono := samples.flatten
    if mono.length = 0 then (d2, some ⟨reason, samples, none, none⟩)
    else
      match engine mono with
      | Except.error _ => (d2, some ⟨reason, samples, none, none⟩)
      | Except.ok raw =>
        let e := emitForClip d.name raw mono.length
        (d2, some ⟨reason, samples, e.1, e.2⟩)

/-- One iteration of the per-speaker body of `TranscribeSink._worker`:

    total = sum(len(x) for x in dq) if dq else 0
    if not dq or total == 0: continue
    idle = (now - last) >= IDLE_FLUSH_SECONDS
    over_chunk = total >= chunk ; over_cap = total >= cap
    if idle or over_cap: flush_speaker(key, "idle" if idle else "cap"); continue
    if over_chunk: <drain up to chunk, transcribe, emit>

Returns the updated speaker state and the flush event, if a flush happened. -/
def tickSpeaker (now : ℚ) (engine : List Int → Except Unit String)
    (d : SpeakerData) : SpeakerData × Option FlushEvent :=
  let total := blocksLen d.blocks
  if total = 0 then (d, none)
  else
    let idle := now - d.last ≥ IDLE_FLUSH_SECONDS
    let over_chunk := chunkSamples ≤ total
    let over_cap := capSamples ≤ total
    if idle ∨ over_cap then
      flushSpeakerFn engine (if idle then FlushReason.idle else FlushReason.cap) d
    else if over_chunk then
      let p := drainUpTo chunkSamples d.blocks
      let d2 : SpeakerData := { d with blocks := p.2 }
      if p.1.isEmpty then (d2, none)
      else
        let mono := p.1.flatten
        if mono.length = 0 then (d2, none)
        else
          match engine mono with
          | Except.error _ => (d2, some ⟨FlushReason.chunk, p.1, none, none⟩)
          | Except.ok raw =>
            let e := emitForClip d.name raw mono.length
            (d2, some ⟨FlushReason.chunk, p.1, e.1, e.2⟩)
    else (d, none)

/-- One full `_worker` tick over the snapshot of speakers, in key order,
collecting the flush events keyed by speaker. -/
def workerTick (now : ℚ) (engine : List Int → Except Unit String) :
    List (String × SpeakerData) → List (String × SpeakerData) × List (String × FlushEvent)
  | [] => ([], [])
  | (k, d) :: rest =>
    let r := tickSpeaker now engine d
    let rr := workerTick now engine rest
    ((k, r.1) :: rr.1,
     match r.2 with
     | some e => (k, e) :: rr.2
     | none => rr.2)

/-- `TranscribeSink.flush_all`: snapshot the keys and call
`_flush_speaker(key, reason="final")` for each, in order. -/
def flushAllFn (engine : List Int → Except Unit String) :
    List (String × SpeakerData) → List (String × SpeakerData) × List (String × FlushEvent)
  | [] => ([], [])
  | (k, d) :: rest =>
    let r := flushSpeakerFn engine FlushReason.final d
    let rr := flushAllFn engine rest
    ((k, r.1) :: rr.1,
     match r.2 with
     | some e => (k, e) :: rr.2
     | none => rr.2)

/-- The mutable state of a `TranscribeSink`: the speaker dicts (as an
association list in insertion order), the `_stopped_accepting` event and
the `_running` event. -/
structure SinkState where
  speakers : List (String × SpeakerData)
  stoppedAccepting : Bool
  running : Bool
deriving Repr

/-- Replace the entry for `key` (first occurrence) with `d`. -/
def updateSpk (key : String) (d : SpeakerData) :
    List (String × SpeakerData) → List (String × SpeakerData)
  | [] => []
  | (k, old) :: rest =>
    if k = key then (k, d) :: rest else (k, old) :: updateSpk key d rest

/-- `TranscribeSink.write`: drop the frame if `_stopped_accepting` is set or
the PCM payload is empty; otherwise convert the frame, create the speaker
entry on first sight (recording the display name), append the block, and
update the last-activity timestamp. `key` and `name` stand for the values
computed from `source`. -/
def writeFn (now : ℚ) (key name : String) (pcm : List Int) (st : SinkState) : SinkState :=
  if st.stoppedAccepting then st
  else if pcm.isEmpty then st
  else
    let arr16 := processFrame pcm
    match (st.speakers.lookup key) with
    | none =>
      { st with speakers := st.speakers ++ [(key, ⟨[arr16], name, now⟩)] }
    | some d =>
      { st with speakers := updateSpk key ⟨d.blocks ++ [arr16], d.name, now⟩ st.speakers }

/-- The operations that can touch a `TranscribeSink`'s state after
construction. Transcription oracles ride along on the operations that
transcribe. -/
inductive SinkOp where
  | write (now : ℚ) (key name : String) (pcm : List Int)
  | stopAccepting
  | stopWorker
  | cleanup
  | tick (now : ℚ) (engine : List Int → Except Unit String)
  | flushAll (engine : List Int → Except Unit String)

/-- State transition of one sink operation. `write` follows
`TranscribeSink.write`; `stopAccepting` sets the one-way latch;
`stop_worker` clears `_running`; `cleanup` does both; a worker tick only
runs while `_running` is set; `flushAll` flushes every speaker with reason
`final`. -/
def step (op : SinkOp) (st : SinkState) : SinkState :=
  match op with
  | SinkOp.write now key name pcm => writeFn now key name pcm st
  | SinkOp.stopAccepting => { st with stoppedAccepting := true }
  | SinkOp.stopWorker => { st with running := false }
  | SinkOp.cleanup => { st with running := false, stoppedAccepting := true }
  | SinkOp.tick now engine =>
    if st.running then { st with speakers := (workerTick now engine st.speakers).1 } else st
  | SinkOp.flushAll engine => { st with speakers := (flushAllFn engine st.speakers).1 }

theorem toInt16wrap_eq_self (x : Int) (h1 : -32768 ≤ x) (h2 : x < 32768) :
    toInt16wrap x = x := by
  unfold toInt16wrap wrapInt
  norm_num
  omega

theorem toInt32wrap_eq_self (x : Int) (h1 : -2147483648 ≤ x) (h2 : x < 2147483648) :
    toInt32wrap x = x := by
  unfold toInt32wrap wrapInt
  norm_num
  omega

/-- For in-range `int16` inputs every cast in `downmixPair` is the identity
and the numpy floor division is Euclidean division by the positive 2. -/
theorem downmixPair_eq_ediv (a b : Int) (ha : isInt16 a) (hb : isInt16 b) :
    downmixPair a b = (a + b) / 2 := by
  obtain ⟨ha1, ha2⟩ := ha
  obtain ⟨hb1, hb2⟩ := hb
  unfold downmixPair
  rw [toInt32wrap_eq_self a (by omega) (by omega),
      toInt32wrap_eq_self b (by omega) (by omega),
      toInt32wrap_eq_self (a + b) (by omega) (by omega),
      Int.fdiv_eq_ediv _ (by norm_num)]
  exact toInt16wrap_eq_self _ (by omega) (by omega)

/-- C4: for every pair of `int16` samples `(a, b)`, the downmix outputs
`⌊(a+b)/2⌋`, and the value is again in `int16` range, so neither the
widened `int32` sum nor the cast back to `int16` wraps. -/
theorem claim_C4_downmix_floor (a b : Int) (ha : isInt16 a) (hb : isInt16 b) :
    downmixPair a b = Int.fdiv (a + b) 2 ∧ isInt16 (downmixPair a b) := by
  have h := downmixPair_eq_ediv a b ha hb
  obtain ⟨ha1, ha2⟩ := ha
  obtain ⟨hb1, hb2⟩ := hb
  refine ⟨?_, ?_⟩
  · rw [h, Int.fdiv_eq_ediv _ (by norm_num)]
  · rw [h]
    constructor <;> omega

/-- Witness for C4 at `a = -32768`, `b = 32767`. -/
theorem claim_C4_witness :
    isInt16 (-32768) ∧ isInt16 32767 ∧
    (downmixPair (-32768) 32767 = Int.fdiv ((-32768) + 32767) 2 ∧
     isInt16 (downmixPair (-32768) 32767)) :=
  ⟨by decide, by decide, claim_C4_downmix_floor (-32768) 32767 (by decide) (by decide)⟩

/-- C5 counterexample: at the `int16` pair `(-1, 0)` the code computes
`(-1) // 2 = -1` (floor division), while truncation toward zero would give
`0` (`Int.tdiv` truncates toward zero). -/
theorem claim_C5_counterexample :
    downmixPair (-1) 0 = -1 ∧ Int.tdiv ((-1) + 0) 2 = 0 ∧
    downmixPair (-1) 0 ≠ Int.tdiv ((-1) + 0) 2 := by
  refine ⟨?_, by decide, ?_⟩ <;> decide

/-- C5 (amended): the downmix divides the widened sum by two with floor
division (rounding toward negative infinity, numpy `//`), not truncation
toward zero; for a negative odd sum the result rounds away from zero. -/
theorem claim_C5_downmix_fdiv (a b : Int) (ha : isInt16 a) (hb : isInt16 b) :
    downmixPair a b = Int.fdiv (a + b) 2 := by
  rw [downmixPair_eq_ediv a b ha hb, Int.fdiv_eq_ediv _ (by norm_num)]

/-- Witness for the amended C5 at `a = -1`, `b = 0`. -/
theorem claim_C5_witness :
    isInt16 (-1) ∧ isInt16 0 ∧ downmixPair (-1) 0 = Int.fdiv ((-1) + 0) 2 :=
  ⟨by decide, by decide, claim_C5_downmix_fdiv (-1) 0 (by decide) (by decide)⟩

theorem every3_length (l : List Int) : (every3 l).length = (l.length + 2) / 3 := by
  induction l using every3.induct with
  | case1 => simp [every3]
  | case2 x xs ih =>
    simp [every3, ih, List.length_drop]
    omega

theorem every3_getElem (l : List Int) (i : Nat) : (every3 l)[i]? = l[3 * i]? := by
  induction l using every3.induct generalizing i with
  | case1 => simp [every3]
  | case2 x xs ih =>
    cases i with
    | zero => simp [every3]
    | succ j =>
      have h3 : 3 * (j + 1) = 2 + 3 * j + 1 := by ring
      rw [h3]
      simp only [every3, List.getElem?_cons_succ]
      rw [ih j, List.getElem?_drop]

/-- C6: decimation by 3 of a mono array of length `N` yields `⌈N/3⌉`
(= `(N+2)/3`) samples, and each output index `i` holds the input sample at
index `3*i`, unchanged. -/
theorem claim_C6_decimation (l : List Int) :
    (resample48kTo16kMonoInt16 l).length = (l.length + 2) / 3 ∧
    ∀ i : Nat, (resample48kTo16kMonoInt16 l)[i]? = l[3 * i]? :=
  ⟨every3_length l, fun i => every3_getElem l i⟩

/-- C7: `drainUpTo` removes a whole-block FIFO prefix: drained ++ remainder
is the original queue (no splitting, no reordering); the drained prefix
reaches the requested amount unless the whole queue was drained; and every
proper prefix of the drained blocks is below the request, so the loop stops
at the first block that satisfies it. -/
theorem claim_C7_drainUpTo (need : Nat) (dq : List (List Int)) :
    (drainUpTo need dq).1 ++ (drainUpTo need dq).2 = dq ∧
    (need ≤ blocksLen (drainUpTo need dq).1 ∨ (drainUpTo need dq).2 = []) ∧
    ∀ k, k < (drainUpTo need dq).1.length →
      blocksLen ((drainUpTo need dq).1.take k) < need :=
  ⟨drainUpTo_append need dq, drainUpTo_enough need dq, drainUpTo_minimal need dq⟩

theorem flushSpeakerFn_empty (engine : List Int → Except Unit String)
    (reason : FlushReason) (d : SpeakerData) (h : d.blocks = []) :
    flushSpeakerFn engine reason d = (d, none) := by
  rcases d with ⟨blocks, name, last⟩
  subst h
  rfl

/-- On a nonempty deque, `_flush_speaker` always empties it and produces a
flush event carrying exactly the popped blocks and the given reason. -/
theorem flushSpeakerFn_drains (engine : List Int → Except Unit String)
    (reason : FlushReason) (d : SpeakerData) (h : d.blocks ≠ []) :
    ∃ line post, flushSpeakerFn engine reason d =
      ({ d with blocks := [] }, some ⟨reason, d.blocks, line, post⟩) := by
  rcases d with ⟨blocks, name, last⟩
  cases blocks with
  | nil => exact absurd rfl h
  | cons x xs =>
    simp only [flushSpeakerFn]
    split
    · exact ⟨none, none, rfl⟩
    · cases heng : engine ((x :: xs).flatten) with
      | error u => exact ⟨none, none, by simp [heng]⟩
      | ok raw =>
        refine ⟨(emitForClip name raw ((x :: xs).flatten.length)).1,
                (emitForClip name raw ((x :: xs).flatten.length)).2, by simp [heng]⟩

theorem flushSpeakerFn_error (engine : List Int → Except Unit String)
    (reason : FlushReason) (d : SpeakerData) (h : d.blocks ≠ [])
    (heng : engine d.blocks.flatten = Except.error ()) :
    flushSpeakerFn engine reason d =
      ({ d with blocks := [] }, some ⟨reason, d.blocks, none, none⟩) := by
  rcases d with ⟨blocks, name, last⟩
  cases blocks with
  | nil => exact absurd rfl h
  | cons x xs =>
    simp only [List.flatten_cons] at heng
    simp only [flushSpeakerFn]
    split
    · rfl
    · simp [heng]

theorem flushSpeakerFn_ok (engine : List Int → Except Unit String)
    (reason : FlushReason) (d : SpeakerData) (raw : String)
    (hm : blocksLen d.blocks ≠ 0)
    (heng : engine d.blocks.flatten = Except.ok raw) :
    flushSpeakerFn engine reason d =
      ({ d with blocks := [] },
       some ⟨reason, d.blocks,
             (emitForClip d.name raw d.blocks.flatten.length).1,
             (emitForClip d.name raw d.blocks.flatten.length).2⟩) := by
  have hlen : d.blocks.flatten.length ≠ 0 := by
    rw [← blocksLen_eq_flatten_length]; exact hm
  rcases d with ⟨blocks, name, last⟩
  cases blocks with
  | nil => simp [blocksLen] at hm
  | cons x xs =>
    simp only [List.flatten_cons] at heng hlen
    simp only [flushSpeakerFn, List.flatten_cons]
    rw [if_neg hlen, heng]

/-- The notification threshold `sec >= MIN_SECONDS_TO_POST` with
`sec = mono16.size / SR_OUT` holds exactly for clips of at least 25600
samples (1.6 s at 16 kHz). -/
theorem post_threshold_iff (n : Nat) :
    ((n : ℚ) / (SR_OUT : ℚ) ≥ MIN_SECONDS_TO_POST) ↔ 25600 ≤ n := by
  unfold SR_OUT MIN_SECONDS_TO_POST
  rw [ge_iff_le, le_div_iff₀ (by norm_num)]
  norm_num

/-- C2: `flush_all` flushes each speaker exactly once, in store order, with
reason `final` and the speaker's entire buffer, regardless of any idle /
chunk / cap / minimum-post threshold; afterwards every queue is empty. -/
theorem claim_C2_flush_all (engine : List Int → Except Unit String)
    (speakers : List (String × SpeakerData))
    (h : ∀ kd ∈ speakers, blocksLen kd.2.blocks ≠ 0) :
    ((flushAllFn engine speakers).2.map (fun ke => (ke.1, ke.2.drained)) =
      speakers.map (fun kd => (kd.1, kd.2.blocks))) ∧
    (∀ ke ∈ (flushAllFn engine speakers).2, ke.2.reason = FlushReason.final) ∧
    (∀ kd ∈ (flushAllFn engine speakers).1, kd.2.blocks = ([] : List (List Int))) := by
  induction speakers with
  | nil => exact ⟨rfl, by simp [flushAllFn], by simp [flushAllFn]⟩
  | cons kd rest ih =>
    obtain ⟨k, d⟩ := kd
    have hd : d.blocks ≠ [] := by
      intro hnil
      exact h (k, d) (by simp) (by simp [hnil, blocksLen])
    obtain ⟨line, post, heq⟩ := flushSpeakerFn_drains engine FlushReason.final d hd
    have hrest := ih (fun kd hkd => h kd (List.mem_cons_of_mem _ hkd))
    obtain ⟨ih1, ih2, ih3⟩ := hrest
    refine ⟨?_, ?_, ?_⟩
    · simp only [flushAllFn, heq, List.map_cons]
      rw [ih1]
    · intro ke hke
      simp only [flushAllFn, heq] at hke
      rcases List.mem_cons.mp hke with hke1 | hke2
      · rw [hke1]
      · exact ih2 ke hke2
    · intro kd2 hkd2
      simp only [flushAllFn, heq] at hkd2
      rcases List.mem_cons.mp hkd2 with hkd1 | hkd3
      · rw [hkd1]
      · exact ih3 kd2 hkd3

/-- Witness for C2: two speakers with partial buffers, flushed by
`flush_all`. -/
theorem claim_C2_witness :
    (∀ kd ∈ [("k1", SpeakerData.mk [[1]] "alice" 0), ("k2", SpeakerData.mk [[2], [3]] "bob" 1)],
      blocksLen kd.2.blocks ≠ 0) ∧
    (((flushAllFn (fun _ => Except.ok "hi")
        [("k1", SpeakerData.mk [[1]] "alice" 0), ("k2", SpeakerData.mk [[2], [3]] "bob" 1)]).2.map
          (fun ke => (ke.1, ke.2.drained)) =
      [("k1", SpeakerData.mk [[1]] "alice" 0), ("k2", SpeakerData.mk [[2], [3]] "bob" 1)].map
          (fun kd => (kd.1, kd.2.blocks))) ∧
    (∀ ke ∈ (flushAllFn (fun _ => Except.ok "hi")
        [("k1", SpeakerData.mk [[1]] "alice" 0), ("k2", SpeakerData.mk [[2], [3]] "bob" 1)]).2,
      ke.2.reason = FlushReason.final) ∧
    (∀ kd ∈ (flushAllFn (fun _ => Except.ok "hi")
        [("k1", SpeakerData.mk [[1]] "alice" 0), ("k2", SpeakerData.mk [[2], [3]] "bob" 1)]).1,
      kd.2.blocks = ([] : List (List Int)))) := by
  refine ⟨by decide, claim_C2_flush_all _ _ (by decide)⟩

/-- C3: when transcription of a flushed clip yields non-empty (stripped)
text, a transcript line with the speaker's stored name is always produced,
and a notification post is produced exactly when the clip's duration,
`drained samples / 16000` seconds, is at least `MIN_SECONDS_TO_POST = 1.6`
(equivalently: at least 25600 samples). -/
theorem claim_C3_post_threshold (engine : List Int → Except Unit String)
    (reason : FlushReason) (d : SpeakerData) (raw : String)
    (hm : blocksLen d.blocks ≠ 0)
    (heng : engine d.blocks.flatten = Except.ok raw)
    (ht : pyStrip raw ≠ "") :
    ∃ e, (flushSpeakerFn engine reason d).2 = some e ∧
      e.line = some (d.name, pyStrip raw) ∧
      (e.post.isSome = true ↔
        ((blocksLen d.blocks : ℚ) / (SR_OUT : ℚ) ≥ MIN_SECONDS_TO_POST)) ∧
      (e.post.isSome = true ↔ 25600 ≤ blocksLen d.blocks) := by
  have heq := flushSpeakerFn_ok engine reason d raw hm heng
  refine ⟨_, by rw [heq], ?_, ?_, ?_⟩
  · simp [emitForClip, ht]
  · simp only [emitForClip, if_neg ht]
    rw [← blocksLen_eq_flatten_length]
    by_cases hc : ((blocksLen d.blocks : ℚ) / (SR_OUT : ℚ) ≥ MIN_SECONDS_TO_POST)
    · simp [hc]
    · simp [hc]
  · rw [← post_threshold_iff (blocksLen d.blocks)]
    simp only [emitForClip, if_neg ht]
    rw [← blocksLen_eq_flatten_length]
    by_cases hc : ((blocksLen d.blocks : ℚ) / (SR_OUT : ℚ) ≥ MIN_SECONDS_TO_POST)
    · simp [hc]
    · simp [hc]

/-- Witness for C3: a 3-sample clip (far below 25600 samples) with non-empty
text is logged but not posted. -/
theorem claim_C3_witness :
    blocksLen (SpeakerData.mk [[0, 0, 0]] "alice" 0).blocks ≠ 0 ∧
    ∃ e, (flushSpeakerFn (fun _ => Except.ok " hi ") FlushReason.idle
            (SpeakerData.mk [[0, 0, 0]] "alice" 0)).2 = some e ∧
      e.line = some ((SpeakerData.mk [[0, 0, 0]] "alice" 0).name, pyStrip " hi ") ∧
      (e.post.isSome = true ↔
        ((blocksLen (SpeakerData.mk [[0, 0, 0]] "alice" 0).blocks : ℚ) / (SR_OUT : ℚ) ≥
          MIN_SECONDS_TO_POST)) ∧
      (e.post.isSome = true ↔ 25600 ≤ blocksLen (SpeakerData.mk [[0, 0, 0]] "alice" 0).blocks) :=
  ⟨by decide,
   claim_C3_post_threshold (fun _ => Except.ok " hi ") FlushReason.idle
     (SpeakerData.mk [[0, 0, 0]] "alice" 0) " hi " (by decide) rfl (by decide)⟩

/-- C8: if the engine raises while transcribing a flushed clip, the flush
produces no transcript line and no post, and the drained audio is not
requeued: the speaker's buffer stays empty. The embedding of
`_flush_speaker` is a total function, mirroring that the exception is
caught inside it and does not propagate. -/
theorem claim_C8_engine_error (engine : List Int → Except Unit String)
    (reason : FlushReason) (d : SpeakerData) (hb : d.blocks ≠ [])
    (heng : engine d.blocks.flatten = Except.error ()) :
    (flushSpeakerFn engine reason d).1.blocks = [] ∧
    (flushSpeakerFn engine reason d).2 = some ⟨reason, d.blocks, none, none⟩ := by
  rw [flushSpeakerFn_error engine reason d hb heng]
  exact ⟨rfl, rfl⟩

/-- Witness for C8: a failing engine on a one-block buffer. -/
theorem claim_C8_witness :
    (SpeakerData.mk [[7]] "bob" 0).blocks ≠ [] ∧
    (flushSpeakerFn (fun _ => Except.error ()) FlushReason.final
        (SpeakerData.mk [[7]] "bob" 0)).1.blocks = [] ∧
    (flushSpeakerFn (fun _ => Except.error ()) FlushReason.final
        (SpeakerData.mk [[7]] "bob" 0)).2 =
      some ⟨FlushReason.final, (SpeakerData.mk [[7]] "bob" 0).blocks, none, none⟩ :=
  ⟨by decide,
   claim_C8_engine_error (fun _ => Except.error ()) FlushReason.final
     (SpeakerData.mk [[7]] "bob" 0) (by decide) rfl⟩

/-- The drained prefix of a `chunk` drain is nonempty in samples whenever
the buffer holds at least `chunkSamples` samples. -/
theorem drainUpTo_chunk_pos (bs : List (List Int))
    (h : chunkSamples ≤ blocksLen bs) :
    0 < blocksLen (drainUpTo chunkSamples bs).1 := by
  have hchunk : 0 < chunkSamples := by decide
  rcases drainUpTo_enough chunkSamples bs with henough | hempty
  · omega
  · have happ := drainUpTo_append chunkSamples bs
    rw [hempty, List.append_nil] at happ
    rw [happ]
    omega

/-- C1: per speaker, per tick, the flush decision follows the priority
order of `_worker`: with a nonempty buffer, if the speaker is idle or at
the hard cap the whole queue is drained with reason `idle` (when idle)
else `cap`; otherwise, at or above the chunk threshold a whole-block
prefix `drainUpTo chunkSamples` is drained with reason `chunk` and the
rest stays queued; otherwise no blocks are removed. -/
theorem claim_C1_tick_decision (now : ℚ) (engine : List Int → Except Unit String)
    (d : SpeakerData) (h : blocksLen d.blocks ≠ 0) :
    if now - d.last ≥ IDLE_FLUSH_SECONDS ∨ capSamples ≤ blocksLen d.blocks then
      (tickSpeaker now engine d).1.blocks = [] ∧
      ∃ e, (tickSpeaker now engine d).2 = some e ∧ e.drained = d.blocks ∧
        e.reason = (if now - d.last ≥ IDLE_FLUSH_SECONDS then FlushReason.idle
                    else FlushReason.cap)
    else if chunkSamples ≤ blocksLen d.blocks then
      (tickSpeaker now engine d).1.blocks = (drainUpTo chunkSamples d.blocks).2 ∧
      ∃ e, (tickSpeaker now engine d).2 = some e ∧
        e.drained = (drainUpTo chunkSamples d.blocks).1 ∧
        e.reason = FlushReason.chunk ∧
        e.drained ++ (tickSpeaker now engine d).1.blocks = d.blocks
    else tickSpeaker now engine d = (d, none) := by
  have hne : d.blocks ≠ [] := by
    intro hnil; rw [hnil] at h; exact h rfl
  by_cases hic : now - d.last ≥ IDLE_FLUSH_SECONDS ∨ capSamples ≤ blocksLen d.blocks
  · rw [if_pos hic]
    have htick : tickSpeaker now engine d =
        flushSpeakerFn engine
          (if now - d.last ≥ IDLE_FLUSH_SECONDS then FlushReason.idle else FlushReason.cap) d := by
      unfold tickSpeaker
      rw [if_neg h, if_pos hic]
    obtain ⟨line, post, heq⟩ :=
      flushSpeakerFn_drains engine
        (if now - d.last ≥ IDLE_FLUSH_SECONDS then FlushReason.idle else FlushReason.cap) d hne
    rw [htick, heq]
    exact ⟨rfl, ⟨_, rfl, rfl, rfl⟩⟩
  · rw [if_neg hic]
    by_cases hch : chunkSamples ≤ blocksLen d.blocks
    · rw [if_pos hch]
      have hpos := drainUpTo_chunk_pos d.blocks hch
      have hnotempty : (drainUpTo chunkSamples d.blocks).1.isEmpty = false := by
        rcases hemp : (drainUpTo chunkSamples d.blocks).1 with _ | ⟨b, bs⟩
        · rw [hemp] at hpos; simp [blocksLen] at hpos
        · rfl
      have hmono : ¬((drainUpTo chunkSamples d.blocks).1.flatten.length = 0) := by
        rw [← blocksLen_eq_flatten_length]
        omega
      have happ := drainUpTo_append chunkSamples d.blocks
      unfold tickSpeaker
      rw [if_neg h, if_neg hic, if_pos hch]
      simp only []
      rw [hnotempty]
      simp only [Bool.false_eq_true, if_false, if_neg hmono]
      cases heng : engine (drainUpTo chunkSamples d.blocks).1.flatten with
      | error u => exact ⟨rfl, ⟨_, rfl, rfl, rfl, happ⟩⟩
      | ok raw => exact ⟨rfl, ⟨_, rfl, rfl, rfl, happ⟩⟩
    · rw [if_neg hch]
      unfold tickSpeaker
      rw [if_neg h, if_neg hic, if_neg hch]

/-- Witness for C1: one buffered block, 5 seconds of wall-clock idleness,
so the idle branch fires and drains everything with reason `idle`. -/
theorem claim_C1_witness :
    blocksLen (SpeakerData.mk [[1]] "a" 0).blocks ≠ 0 ∧
    ((tickSpeaker 5 (fun _ => Except.ok "") (SpeakerData.mk [[1]] "a" 0)).1.blocks = [] ∧
     ∃ e, (tickSpeaker 5 (fun _ => Except.ok "") (SpeakerData.mk [[1]] "a" 0)).2 = some e ∧
       e.drained = (SpeakerData.mk [[1]] "a" 0).blocks ∧
       e.reason = (if (5 : ℚ) - (SpeakerData.mk [[1]] "a" 0).last ≥ IDLE_FLUSH_SECONDS
                   then FlushReason.idle else FlushReason.cap)) := by
  have hcond : (5 : ℚ) - (SpeakerData.mk [[1]] "a" 0).last ≥ IDLE_FLUSH_SECONDS ∨
      capSamples ≤ blocksLen (SpeakerData.mk [[1]] "a" 0).blocks := by
    left
    show (5 : ℚ) - 0 ≥ IDLE_FLUSH_SECONDS
    norm_num [IDLE_FLUSH_SECONDS]
  have h := claim_C1_tick_decision 5 (fun _ => Except.ok "") (SpeakerData.mk [[1]] "a" 0)
    (by decide)
  rw [if_pos hcond] at h
  exact ⟨by decide, h⟩

/-- The stored display name of a speaker, `self._names.get(key)`. -/
def nameOf (st : SinkState) (key : String) : Option String :=
  (st.speakers.lookup key).map SpeakerData.name

theorem lookup_append_some (l l2 : List (String × SpeakerData)) (key : String)
    (v : SpeakerData) (h : l.lookup key = some v) :
    (l ++ l2).lookup key = some v := by
  induction l with
  | nil => simp [List.lookup] at h
  | cons kb rest ih =>
    obtain ⟨k, b⟩ := kb
    by_cases hk : key = k
    · subst hk
      simp [List.lookup] at h ⊢
      exact h
    · simp [List.lookup, beq_false_of_ne hk] at h ⊢
      exact ih h

/-- `updateSpk` does not change the looked-up name of any key, provided the
replacement keeps the name of the entry it replaces. -/
theorem nameOf_updateSpk (l : List (String × SpeakerData)) (key key2 : String)
    (d2 : SpeakerData) (hname : ∀ d0, l.lookup key2 = some d0 → d2.name = d0.name) :
    ((updateSpk key2 d2 l).lookup key).map SpeakerData.name =
      (l.lookup key).map SpeakerData.name := by
  induction l with
  | nil => rfl
  | cons kb rest ih =>
    obtain ⟨k, old⟩ := kb
    by_cases hk2 : k = key2
    · subst hk2
      simp only [updateSpk, if_pos rfl]
      by_cases hk : key = k
      · subst hk
        simp only [List.lookup, beq_self_eq_true]
        have := hname old (by simp [List.lookup])
        simp [this]
      · simp [List.lookup, beq_false_of_ne hk]
    · simp only [updateSpk, if_neg hk2]
      by_cases hk : key = k
      · subst hk
        simp [List.lookup]
      · simp only [List.lookup, beq_false_of_ne hk]
        exact ih (fun d0 hd0 => hname d0 (by simpa [List.lookup, beq_false_of_ne (Ne.symm hk2)] using hd0))

theorem flushSpeakerFn_name (engine : List Int → Except Unit String)
    (reason : FlushReason) (d : SpeakerData) :
    (flushSpeakerFn engine reason d).1.name = d.name := by
  rcases d with ⟨blocks, name, last⟩
  cases blocks with
  | nil => rfl
  | cons x xs =>
    simp only [flushSpeakerFn]
    split
    · rfl
    · split <;> rfl

theorem tickSpeaker_name (now : ℚ) (engine : List Int → Except Unit String)
    (d : SpeakerData) : (tickSpeaker now engine d).1.name = d.name := by
  by_cases h0 : blocksLen d.blocks = 0
  · unfold tickSpeaker
    rw [if_pos h0]
  · by_cases hic : now - d.last ≥ IDLE_FLUSH_SECONDS ∨ capSamples ≤ blocksLen d.blocks
    · unfold tickSpeaker
      rw [if_neg h0, if_pos hic]
      exact flushSpeakerFn_name engine _ d
    · by_cases hch : chunkSamples ≤ blocksLen d.blocks
      · unfold tickSpeaker
        rw [if_neg h0, if_neg hic, if_pos hch]
        simp only []
        cases hemp : (drainUpTo chunkSamples d.blocks).1.isEmpty with
        | true => simp [hemp]
        | false =>
          simp only [hemp, Bool.false_eq_true, if_false]
          by_cases hlen : (drainUpTo chunkSamples d.blocks).1.flatten.length = 0
          · rw [if_pos hlen]
          · rw [if_neg hlen]
            cases engine ((drainUpTo chunkSamples d.blocks).1.flatten) <;> rfl
      · unfold tickSpeaker
        rw [if_neg h0, if_neg hic, if_neg hch]

theorem workerTick_name (now : ℚ) (engine : List Int → Except Unit String)
    (l : List (String × SpeakerData)) (key : String) :
    (((workerTick now engine l).1.lookup key).map SpeakerData.name) =
      ((l.lookup key).map SpeakerData.name) := by
  induction l with
  | nil => rfl
  | cons kd rest ih =>
    obtain ⟨k, d⟩ := kd
    by_cases hk : key = k
    · subst hk
      simp [workerTick, List.lookup, tickSpeaker_name]
    · simp only [workerTick, List.lookup, beq_false_of_ne hk]
      exact ih

theorem flushAllFn_name (engine : List Int → Except Unit String)
    (l : List (String × SpeakerData)) (key : String) :
    (((flushAllFn engine l).1.lookup key).map SpeakerData.name) =
      ((l.lookup key).map SpeakerData.name) := by
  induction l with
  | nil => rfl
  | cons kd rest ih =>
    obtain ⟨k, d⟩ := kd
    by_cases hk : key = k
    · subst hk
      simp [flushAllFn, List.lookup, flushSpeakerFn_name]
    · simp only [flushAllFn, List.lookup, beq_false_of_ne hk]
      exact ih

theorem nameOf_writeFn (now : ℚ) (key2 name2 : String) (pcm : List Int)
    (st : SinkState) (key : String) (n : String) (h : nameOf st key = some n) :
    nameOf (writeFn now key2 name2 pcm st) key = some n := by
  unfold nameOf at h
  unfold writeFn nameOf
  split
  · exact h
  · split
    · exact h
    · cases hl : st.speakers.lookup key2 with
      | none =>
        simp only [hl]
        obtain ⟨dk, hdk, hdkname⟩ : ∃ dk, st.speakers.lookup key = some dk ∧ dk.name = n := by
          cases hk : st.speakers.lookup key with
          | none => rw [hk] at h; simp at h
          | some dk =>
            rw [hk] at h
            simp at h
            exact ⟨dk, rfl, h⟩
        rw [lookup_append_some _ _ _ _ hdk]
        simp [hdkname]
      | some d =>
        simp only [hl]
        rw [nameOf_updateSpk]
        · exact h
        · intro d0 hd0
          rw [hl] at hd0
          cases hd0
          rfl

/-- C9: `_stopped_accepting` is a one-way latch: no operation ever clears
it, and once it is set every `write` returns with the state untouched (no
block queued, no speaker entry created, no name or last-activity update). -/
theorem claim_C9_stop_latch (st : SinkState) (h : st.stoppedAccepting = true) :
    (∀ op : SinkOp, (step op st).stoppedAccepting = true) ∧
    (∀ (now : ℚ) (key name : String) (pcm : List Int),
      step (SinkOp.write now key name pcm) st = st) := by
  constructor
  · intro op
    cases op with
    | write now key name pcm => simp [step, writeFn, h]
    | stopAccepting => rfl
    | stopWorker => simpa [step] using h
    | cleanup => rfl
    | tick now engine => by_cases hr : st.running <;> simp [step, hr, h]
    | flushAll engine => simpa [step] using h
  · intro now key name pcm
    simp [step, writeFn, h]

/-- Witness for C9: a stopped sink ignores a concrete `write`. -/
theorem claim_C9_witness :
    (SinkState.mk [("k", SpeakerData.mk [[1]] "alice" 0)] true true).stoppedAccepting = true ∧
    ((∀ op : SinkOp,
        (step op (SinkState.mk [("k", SpeakerData.mk [[1]] "alice" 0)] true true)).stoppedAccepting
          = true) ∧
     (∀ (now : ℚ) (key name : String) (pcm : List Int),
        step (SinkOp.write now key name pcm)
            (SinkState.mk [("k", SpeakerData.mk [[1]] "alice" 0)] true true) =
          SinkState.mk [("k", SpeakerData.mk [[1]] "alice" 0)] true true)) :=
  ⟨rfl, claim_C9_stop_latch (SinkState.mk [("k", SpeakerData.mk [[1]] "alice" 0)] true true) rfl⟩

/-- C10: once a speaker's display name is stored (at their first frame), no
later operation — in particular no later `write`, even one reporting a
different display name — changes the stored name for that key. -/
theorem claim_C10_name_sticky (op : SinkOp) (st : SinkState) (key n : String)
    (h : nameOf st key = some n) :
    nameOf (step op st) key = some n := by
  cases op with
  | write now key2 name2 pcm => exact nameOf_writeFn now key2 name2 pcm st key n h
  | stopAccepting => exact h
  | stopWorker => exact h
  | cleanup => exact h
  | tick now engine =>
    by_cases hr : st.running
    · simp only [step, if_pos hr, nameOf]
      rw [workerTick_name]
      exact h
    · simp only [step, if_neg hr]
      exact h
  | flushAll engine =>
    simp only [step, nameOf]
    rw [flushAllFn_name]
    exact h

/-- Witness for C10: a later `write` for key `k` reporting the name `"bob"`
leaves the stored name `"alice"` in place. -/
theorem claim_C10_witness :
    nameOf (SinkState.mk [("k", SpeakerData.mk [[1]] "alice" 0)] false true) "k" = some "alice" ∧
    nameOf (step (SinkOp.write 1 "k" "bob" [1, 2, 3])
        (SinkState.mk [("k", SpeakerData.mk [[1]] "alice" 0)] false true)) "k" = some "alice" :=
  ⟨by decide,
   claim_C10_name_sticky (SinkOp.write 1 "k" "bob" [1, 2, 3])
     (SinkState.mk [("k", SpeakerData.mk [[1]] "alice" 0)] false true) "k" "alice" (by decide)⟩

end Freshbot
